import Mathlib

/-!
Verification of the in-memory transactional key-value store
(`src/InMemoryDB.py` and `src/in_memory_db.py`).

The store holds two fields: `main_state`, a dict from string keys to
integer values (the committed state), and `transaction_state`, an
optional dict holding the staged state of the currently open
transaction (`None` when no transaction is active).

Python dicts are modelled as association lists with Python's update
semantics: assigning to an existing key overwrites it in place,
assigning to a fresh key appends it.  `dict.get` returns the value or
`None`.  `dict.copy()` is a shallow copy: a new dict with the same
entries, which as a value equals the original.

Python's dynamically typed `value` argument of `put` is modelled by
`PyVal`: either an integer or some non-integer object.  Exceptions are
modelled by `Except`: each operation returns either an error (the
state object is untouched, since every `raise` in the source happens
before any field assignment) or the updated store.  The `print` calls
in the source are diagnostics with no effect on the store's fields and
are not modelled.
-/

namespace InMemoryDBSpec

/-- Python dict assignment `d[k] = v`: overwrite in place if `k` is
present, else append the new entry at the end. -/
def dictSet (d : List (String × Int)) (k : String) (v : Int) :
    List (String × Int) :=
  match d with
  | [] => [(k, v)]
  | (k', v') :: rest =>
      if k' = k then (k, v) :: rest else (k', v') :: dictSet rest k v

/-- Python `d.get(k)`: the value stored at `k`, or `none`. -/
def dictGet (d : List (String × Int)) (k : String) : Option Int :=
  match d with
  | [] => none
  | (k', v') :: rest => if k' = k then some v' else dictGet rest k

/-- Python `d.copy()`: a shallow copy, a fresh dict holding the same
entries in the same order. -/
def dictCopy (d : List (String × Int)) : List (String × Int) :=
  d.map (fun kv => kv)

/-- A Python value passed as the `value` argument of `put`: either an
`int`, or any non-integer object (tagged by an abstract description). -/
inductive PyVal where
  | int (n : Int)
  | obj (tag : String)
deriving DecidableEq, Repr

/-- The exceptions the source can raise: `NoTransactionError`, the
plain `Exception` raised by `begin_transaction`, and `ValueError`.
The human-readable message text attached to each exception is
diagnostic only and is not modelled. -/
inductive DBError where
  | noTransactionError
  | anotherTransactionInProgress
  | valueError
deriving DecidableEq, Repr

/-- The store: committed dict plus optional staged dict
(`src/InMemoryDB.py`, `__init__`). -/
structure InMemoryDB where
  main_state : List (String × Int)
  transaction_state : Option (List (String × Int))
deriving DecidableEq, Repr

/-- `InMemoryDB()`: both fields start empty / absent. -/
def InMemoryDB.init : InMemoryDB :=
  { main_state := [], transaction_state := none }

/-- `begin_transaction`: fails if a transaction is already in
progress, otherwise stages a copy of the committed state. -/
def begin_transaction (db : InMemoryDB) : Except DBError InMemoryDB :=
  match db.transaction_state with
  | some _ => .error .anotherTransactionInProgress
  | none =>
      .ok { db with transaction_state := some (dictCopy db.main_state) }

/-- `put`: checks `isinstance(value, int)` first, then that a
transaction is open, then assigns into the staged dict. -/
def put (db : InMemoryDB) (key : String) (value : PyVal) :
    Except DBError InMemoryDB :=
  match value with
  | .obj _ => .error .valueError
  | .int v =>
      match db.transaction_state with
      | none => .error .noTransactionError
      | some ts =>
          .ok { db with transaction_state := some (dictSet ts key v) }

/-- `get`: reads the staged dict when a transaction is active, else
the committed dict; never raises. -/
def get (db : InMemoryDB) (key : String) : Option Int :=
  match db.transaction_state with
  | some ts => dictGet ts key
  | none => dictGet db.main_state key

/-- `commit` as in `src/InMemoryDB.py`: installs the staged dict
directly as the committed state, then ends the transaction. -/
def commit (db : InMemoryDB) : Except DBError InMemoryDB :=
  match db.transaction_state with
  | none => .error .noTransactionError
  | some ts => .ok { main_state := ts, transaction_state := none }

/-- `commit` as in `src/in_memory_db.py`: identical except it installs
`transaction_state.copy()` as the committed state. -/
def commit_copying (db : InMemoryDB) : Except DBError InMemoryDB :=
  match db.transaction_state with
  | none => .error .noTransactionError
  | some ts => .ok { main_state := dictCopy ts, transaction_state := none }

/-- `rollback`: discards the staged dict, leaving the committed state
unchanged. -/
def rollback (db : InMemoryDB) : Except DBError InMemoryDB :=
  match db.transaction_state with
  | none => .error .noTransactionError
  | some _ => .ok { db with transaction_state := none }

/-- One call on the store's interface. -/
inductive Op where
  | beginTx
  | put (key : String) (value : PyVal)
  | get (key : String)
  | commit
  | rollback
deriving DecidableEq, Repr

/-- The caller-visible outcome of one call. -/
inductive Res where
  | ok
  | val (v : Option Int)
  | err (e : DBError)
deriving DecidableEq, Repr

/-- Run one call against the store.  A raised exception leaves the
store object exactly as it was (every `raise` in the source happens
before any field assignment), so on error the prior state is kept. -/
def step (db : InMemoryDB) : Op → InMemoryDB × Res
  | .beginTx =>
      match begin_transaction db with
      | .ok db' => (db', .ok)
      | .error e => (db, .err e)
  | .put k v =>
      match put db k v with
      | .ok db' => (db', .ok)
      | .error e => (db, .err e)
  | .get k => (db, .val (get db k))
  | .commit =>
      match commit db with
      | .ok db' => (db', .ok)
      | .error e => (db, .err e)
  | .rollback =>
      match rollback db with
      | .ok db' => (db', .ok)
      | .error e => (db, .err e)

/-- Run a sequence of calls, collecting each call's outcome. -/
def run (db : InMemoryDB) : List Op → InMemoryDB × List Res
  | [] => (db, [])
  | op :: ops =>
      let (db', r) := step db op
      let (db'', rs) := run db' ops
      (db'', r :: rs)

/-- States reachable from the fresh store by sequences of calls. -/
inductive Reachable : InMemoryDB → Prop where
  | init : Reachable InMemoryDB.init
  | step (db : InMemoryDB) (op : Op) (h : Reachable db) :
      Reachable (step db op).1

/-- `step` for the `src/in_memory_db.py` variant, whose `commit`
installs a copy of the staged dict. -/
def step_copying (db : InMemoryDB) : Op → InMemoryDB × Res
  | .beginTx =>
      match begin_transaction db with
      | .ok db' => (db', .ok)
      | .error e => (db, .err e)
  | .put k v =>
      match put db k v with
      | .ok db' => (db', .ok)
      | .error e => (db, .err e)
  | .get k => (db, .val (get db k))
  | .commit =>
      match commit_copying db with
      | .ok db' => (db', .ok)
      | .error e => (db, .err e)
  | .rollback =>
      match rollback db with
      | .ok db' => (db', .ok)
      | .error e => (db, .err e)

/-- `run` for the `src/in_memory_db.py` variant. -/
def run_copying (db : InMemoryDB) : List Op → InMemoryDB × List Res
  | [] => (db, [])
  | op :: ops =>
      let (db', r) := step_copying db op
      let (db'', rs) := run_copying db' ops
      (db'', r :: rs)

/-- Apply a sequence of `put` calls with integer values, stopping at
the first exception. -/
def putAll (db : InMemoryDB) : List (String × Int) → Except DBError InMemoryDB
  | [] => .ok db
  | (k, v) :: rest =>
      match put db k (.int v) with
      | .ok db' => putAll db' rest
      | .error e => .error e

/-- The staged dict produced by applying the mutations `M` in order to
an initial staged dict `ts`. -/
def stage (ts : List (String × Int)) (M : List (String × Int)) :
    List (String × Int) :=
  M.foldl (fun d p => dictSet d p.1 p.2) ts

/-- The value of the last mutation in `M` that touches `k`, if any. -/
def lastAssign : List (String × Int) → String → Option Int
  | [], _ => none
  | (k', v) :: rest, k =>
      match lastAssign rest k with
      | some v' => some v'
      | none => if k' = k then some v else none

theorem dictCopy_eq (d : List (String × Int)) : dictCopy d = d := by
  simp [dictCopy]

theorem dictGet_dictSet (d : List (String × Int)) (k : String) (v : Int)
    (k' : String) :
    dictGet (dictSet d k v) k' = if k = k' then some v else dictGet d k' := by
  induction d with
  | nil => simp [dictSet, dictGet]
  | cons hd tl ih =>
      obtain ⟨k₀, v₀⟩ := hd
      by_cases h₀ : k₀ = k
      · subst h₀
        by_cases h₁ : k₀ = k'
        · subst h₁; simp [dictSet, dictGet]
        · simp [dictSet, dictGet, h₁]
      · by_cases h₁ : k₀ = k'
        · subst h₁
          have hne : ¬ k = k₀ := fun h => h₀ h.symm
          simp [dictSet, dictGet, h₀, hne]
        · simp [dictSet, dictGet, h₀, h₁, ih]

theorem dictGet_stage (ts M : List (String × Int)) (k : String) :
    dictGet (stage ts M) k =
      match lastAssign M k with
      | some v => some v
      | none => dictGet ts k := by
  induction M generalizing ts with
  | nil => simp [stage, lastAssign]
  | cons hd rest ih =>
      obtain ⟨k', v⟩ := hd
      have hstep : stage ts ((k', v) :: rest) = stage (dictSet ts k' v) rest := rfl
      rw [hstep, ih]
      cases hlast : lastAssign rest k with
      | some v' => simp [lastAssign, hlast]
      | none =>
          simp only [lastAssign, hlast, dictGet_dictSet]
          by_cases h : k' = k <;> simp [h]

theorem putAll_open (ts : List (String × Int)) (M : List (String × Int))
    (db : InMemoryDB) (h : db.transaction_state = some ts) :
    putAll db M = .ok ⟨db.main_state, some (stage ts M)⟩ := by
  induction M generalizing db ts with
  | nil =>
      obtain ⟨main, txn⟩ := db
      simp only at h
      subst h
      simp [putAll, stage]
  | cons hd rest ih =>
      obtain ⟨k, v⟩ := hd
      have hput : put db k (.int v) =
          .ok { db with transaction_state := some (dictSet ts k v) } := by
        simp [put, h]
      have hstage : stage ts ((k, v) :: rest) = stage (dictSet ts k v) rest := rfl
      rw [hstage]
      simp only [putAll, hput]
      exact ih (dictSet ts k v) { db with transaction_state := some (dictSet ts k v) } rfl

theorem dictGet_eq_none_of_not_mem (d : List (String × Int)) (k : String)
    (h : k ∉ d.map Prod.fst) : dictGet d k = none := by
  induction d with
  | nil => rfl
  | cons hd rest ih =>
      obtain ⟨k₀, v₀⟩ := hd
      simp only [List.map_cons, List.mem_cons] at h
      push_neg at h
      have hne : k₀ ≠ k := fun he => h.1 he.symm
      simp [dictGet, hne, ih h.2]

theorem commit_copying_eq (db : InMemoryDB) : commit_copying db = commit db := by
  cases h : db.transaction_state with
  | none => simp [commit, commit_copying, h]
  | some ts => simp [commit, commit_copying, h, dictCopy_eq]

theorem step_copying_eq (db : InMemoryDB) (op : Op) :
    step_copying db op = step db op := by
  cases op <;> simp [step, step_copying, commit_copying_eq]

theorem run_copying_eq (db : InMemoryDB) (ops : List Op) :
    run_copying db ops = run db ops := by
  induction ops generalizing db with
  | nil => rfl
  | cons op rest ih =>
      simp only [run, run_copying, step_copying_eq, ih]

/-- C1: Commit durability.  Starting from any committed state with no
transaction open, after `begin`, any sequence `M` of `put` calls, and
`commit`, the store is idle again and every `get` outside a transaction
returns the last value put for a key touched by `M`, and the prior
committed value (or absent) for every key `M` does not touch. -/
theorem commit_durability (db db₁ db₂ db₃ : InMemoryDB)
    (M : List (String × Int)) (k : String)
    (h0 : db.transaction_state = none)
    (h1 : begin_transaction db = .ok db₁)
    (h2 : putAll db₁ M = .ok db₂)
    (h3 : commit db₂ = .ok db₃) :
    db₃.transaction_state = none ∧
    get db₃ k = (match lastAssign M k with
                 | some v => some v
                 | none => get db k) := by
  have hb : begin_transaction db =
      .ok { db with transaction_state := some (dictCopy db.main_state) } := by
    simp [begin_transaction, h0]
  rw [hb] at h1
  have hdb₁ : db₁ = { db with transaction_state := some (dictCopy db.main_state) } :=
    ((Except.ok.injEq _ _).mp h1).symm
  have hp := putAll_open (dictCopy db.main_state) M db₁ (by rw [hdb₁])
  rw [hp] at h2
  have hdb₂ : db₂ = ⟨db₁.main_state, some (stage (dictCopy db.main_state) M)⟩ :=
    ((Except.ok.injEq _ _).mp h2).symm
  have hc : commit db₂ = .ok ⟨stage (dictCopy db.main_state) M, none⟩ := by
    rw [hdb₂]; simp [commit]
  rw [hc] at h3
  have hdb₃ : db₃ = ⟨stage (dictCopy db.main_state) M, none⟩ :=
    ((Except.ok.injEq _ _).mp h3).symm
  subst hdb₃
  refine ⟨rfl, ?_⟩
  have hg : get ⟨stage (dictCopy db.main_state) M, none⟩ k =
      dictGet (stage (dictCopy db.main_state) M) k := rfl
  rw [hg, dictGet_stage, dictCopy_eq]
  have hgdb : get db k = dictGet db.main_state k := by simp [get, h0]
  rw [hgdb]

/-- Witness for C1 at a concrete run: three puts, two touching "A". -/
theorem commit_durability_witness :
    (InMemoryDB.mk [("A", 6), ("B", 1)] none).transaction_state = none ∧
    get (InMemoryDB.mk [("A", 6), ("B", 1)] none) "A" =
      (match lastAssign [("A", 5), ("B", 1), ("A", 6)] "A" with
       | some v => some v
       | none => get InMemoryDB.init "A") :=
  commit_durability InMemoryDB.init ⟨[], some []⟩
    ⟨[], some [("A", 6), ("B", 1)]⟩ ⟨[("A", 6), ("B", 1)], none⟩
    [("A", 5), ("B", 1), ("A", 6)] "A" rfl rfl rfl rfl

/-- C2: Rollback isolation.  Starting from any committed state with no
transaction open, `begin`, any sequence of successful `put` calls, and
`rollback` leave the committed state exactly as it was (every `get`
agrees with the pre-`begin` store) and the staged state absent. -/
theorem rollback_isolation (db db₁ db₂ db₃ : InMemoryDB)
    (M : List (String × Int))
    (h0 : db.transaction_state = none)
    (h1 : begin_transaction db = .ok db₁)
    (h2 : putAll db₁ M = .ok db₂)
    (h3 : rollback db₂ = .ok db₃) :
    db₃.main_state = db.main_state ∧
    db₃.transaction_state = none ∧
    ∀ k, get db₃ k = get db k := by
  have hb : begin_transaction db =
      .ok { db with transaction_state := some (dictCopy db.main_state) } := by
    simp [begin_transaction, h0]
  rw [hb] at h1
  have hdb₁ : db₁ = { db with transaction_state := some (dictCopy db.main_state) } :=
    ((Except.ok.injEq _ _).mp h1).symm
  have hp := putAll_open (dictCopy db.main_state) M db₁ (by rw [hdb₁])
  rw [hp] at h2
  have hdb₂ : db₂ = ⟨db₁.main_state, some (stage (dictCopy db.main_state) M)⟩ :=
    ((Except.ok.injEq _ _).mp h2).symm
  have hr : rollback db₂ = .ok ⟨db₁.main_state, none⟩ := by
    rw [hdb₂]; simp [rollback]
  rw [hr] at h3
  have hdb₃ : db₃ = ⟨db₁.main_state, none⟩ :=
    ((Except.ok.injEq _ _).mp h3).symm
  have hmain : db₁.main_state = db.main_state := by rw [hdb₁]
  subst hdb₃
  refine ⟨hmain, rfl, fun k => ?_⟩
  simp [get, h0, hmain]

/-- Witness for C2: put two keys into a transaction over a one-key
committed state, then roll back. -/
theorem rollback_isolation_witness :
    (InMemoryDB.mk [("A", 1)] none).main_state =
      (InMemoryDB.mk [("A", 1)] none).main_state ∧
    (InMemoryDB.mk [("A", 1)] none).transaction_state = none ∧
    ∀ k, get (InMemoryDB.mk [("A", 1)] none) k =
      get (InMemoryDB.mk [("A", 1)] none) k :=
  rollback_isolation ⟨[("A", 1)], none⟩
    ⟨[("A", 1)], some [("A", 1)]⟩
    ⟨[("A", 1)], some [("A", 7), ("B", 2)]⟩
    ⟨[("A", 1)], none⟩
    [("A", 7), ("B", 2)] rfl rfl rfl rfl

/-- C3: Read-your-own-writes.  From any idle store, `begin`, `put k v`,
`get k` returns `v` (even if `k` was committed with another value);
and in general, inside an open transaction a `get` after any sequence
of `put` calls returns the most recent value put for that key. -/
theorem read_your_own_writes (db db₁ db₂ : InMemoryDB) (k : String) (v : Int)
    (h0 : db.transaction_state = none)
    (h1 : begin_transaction db = .ok db₁)
    (h2 : put db₁ k (.int v) = .ok db₂) :
    get db₂ k = some v ∧
    ∀ (dbo dbo' : InMemoryDB) (M : List (String × Int)) (k' : String) (v' : Int),
      dbo.transaction_state.isSome = true →
      putAll dbo M = .ok dbo' →
      lastAssign M k' = some v' →
      get dbo' k' = some v' := by
  constructor
  · have hb : begin_transaction db =
        .ok { db with transaction_state := some (dictCopy db.main_state) } := by
      simp [begin_transaction, h0]
    rw [hb] at h1
    have hdb₁ : db₁ = { db with transaction_state := some (dictCopy db.main_state) } :=
      ((Except.ok.injEq _ _).mp h1).symm
    have hput : put db₁ k (.int v) =
        .ok { db₁ with
              transaction_state := some (dictSet (dictCopy db.main_state) k v) } := by
      rw [hdb₁]; simp [put]
    rw [hput] at h2
    have hdb₂ : db₂ = { db₁ with
        transaction_state := some (dictSet (dictCopy db.main_state) k v) } :=
      ((Except.ok.injEq _ _).mp h2).symm
    subst hdb₂
    simp [get, dictGet_dictSet]
  · intro dbo dbo' M k' v' hopen hall hlast
    obtain ⟨ts, hts⟩ := Option.isSome_iff_exists.mp hopen
    have hp := putAll_open ts M dbo hts
    rw [hp] at hall
    have hdbo' : dbo' = ⟨dbo.main_state, some (stage ts M)⟩ :=
      ((Except.ok.injEq _ _).mp hall).symm
    subst hdbo'
    have hg : get ⟨dbo.main_state, some (stage ts M)⟩ k' =
        dictGet (stage ts M) k' := rfl
    rw [hg, dictGet_stage, hlast]

/-- Witness for C3: commit "A" ↦ 1, then in a fresh transaction put
"A" ↦ 5 and read it back. -/
theorem read_your_own_writes_witness :
    get (InMemoryDB.mk [("A", 1)] (some [("A", 5)])) "A" = some 5 :=
  (read_your_own_writes ⟨[("A", 1)], none⟩
    ⟨[("A", 1)], some [("A", 1)]⟩
    ⟨[("A", 1)], some [("A", 5)]⟩
    "A" 5 rfl rfl rfl).1

/-- C4: `put` with an integer value while no transaction is active
always fails with `NoTransactionError` and leaves the store (in
particular the committed state) unchanged. -/
theorem put_outside_transaction_fails (db : InMemoryDB) (k : String) (v : Int)
    (h : db.transaction_state = none) :
    put db k (.int v) = .error .noTransactionError ∧
    (step db (.put k (.int v))).1 = db := by
  have hp : put db k (.int v) = .error .noTransactionError := by simp [put, h]
  exact ⟨hp, by simp [step, hp]⟩

/-- Witness for C4 on the fresh store. -/
theorem put_outside_transaction_fails_witness :
    put InMemoryDB.init "A" (.int 5) = .error .noTransactionError ∧
    (step InMemoryDB.init (.put "A" (.int 5))).1 = InMemoryDB.init :=
  put_outside_transaction_fails InMemoryDB.init "A" 5 rfl

/-- C5: `begin_transaction` while a transaction is open fails with the
"another transaction in progress" error and leaves both state fields
unchanged; while idle it succeeds, stages a full copy of the committed
state, and every `get` immediately afterwards agrees with the `get`
just before. -/
theorem begin_transaction_spec (db : InMemoryDB) :
    (db.transaction_state.isSome = true →
      begin_transaction db = .error .anotherTransactionInProgress ∧
      (step db .beginTx).1 = db) ∧
    (db.transaction_state = none →
      begin_transaction db =
        .ok { db with transaction_state := some (dictCopy db.main_state) } ∧
      (step db .beginTx).1.main_state = db.main_state ∧
      (step db .beginTx).1.transaction_state = some (dictCopy db.main_state) ∧
      ∀ k, get (step db .beginTx).1 k = get db k) := by
  constructor
  · intro hopen
    obtain ⟨ts, hts⟩ := Option.isSome_iff_exists.mp hopen
    have he : begin_transaction db = .error .anotherTransactionInProgress := by
      simp [begin_transaction, hts]
    exact ⟨he, by simp [step, he]⟩
  · intro hidle
    have hb : begin_transaction db =
        .ok { db with transaction_state := some (dictCopy db.main_state) } := by
      simp [begin_transaction, hidle]
    refine ⟨hb, ?_, ?_, ?_⟩
    · simp [step, hb]
    · simp [step, hb]
    · intro k
      simp [step, hb, get, hidle, dictCopy_eq]

/-- Witness for C5: the open-store branch on a store with a staged
dict, and the idle branch on the fresh store. -/
theorem begin_transaction_spec_witness :
    (begin_transaction (InMemoryDB.mk [("A", 1)] (some [("A", 2)])) =
        .error .anotherTransactionInProgress ∧
      (step (InMemoryDB.mk [("A", 1)] (some [("A", 2)])) .beginTx).1 =
        InMemoryDB.mk [("A", 1)] (some [("A", 2)])) ∧
    begin_transaction InMemoryDB.init =
      .ok { InMemoryDB.init with
            transaction_state := some (dictCopy InMemoryDB.init.main_state) } :=
  ⟨(begin_transaction_spec (InMemoryDB.mk [("A", 1)] (some [("A", 2)]))).1 rfl,
   ((begin_transaction_spec InMemoryDB.init).2 rfl).1⟩

/-- C6: `commit` and `rollback` while idle fail with
`NoTransactionError` and change neither state field; and in general
every call that reports an error leaves the store exactly as it was. -/
theorem commit_rollback_outside_fails (db : InMemoryDB)
    (h : db.transaction_state = none) :
    commit db = .error .noTransactionError ∧
    rollback db = .error .noTransactionError ∧
    (step db .commit).1 = db ∧
    (step db .rollback).1 = db ∧
    ∀ (db' : InMemoryDB) (op : Op) (e : DBError),
      (step db' op).2 = .err e → (step db' op).1 = db' := by
  have hc : commit db = .error .noTransactionError := by simp [commit, h]
  have hr : rollback db = .error .noTransactionError := by simp [rollback, h]
  refine ⟨hc, hr, by simp [step, hc], by simp [step, hr], ?_⟩
  intro db' op e hne
  cases op with
  | beginTx =>
      cases hb : begin_transaction db' with
      | ok d => simp [step, hb] at hne
      | error e' => simp [step, hb]
  | put k v =>
      cases hb : put db' k v with
      | ok d => simp [step, hb] at hne
      | error e' => simp [step, hb]
  | get k => simp [step] at hne
  | commit =>
      cases hb : commit db' with
      | ok d => simp [step, hb] at hne
      | error e' => simp [step, hb]
  | rollback =>
      cases hb : rollback db' with
      | ok d => simp [step, hb] at hne
      | error e' => simp [step, hb]

/-- Witness for C6 on the fresh store. -/
theorem commit_rollback_outside_fails_witness :
    commit InMemoryDB.init = .error .noTransactionError ∧
    rollback InMemoryDB.init = .error .noTransactionError :=
  ⟨(commit_rollback_outside_fails InMemoryDB.init rfl).1,
   (commit_rollback_outside_fails InMemoryDB.init rfl).2.1⟩

/-- C7: `get` never fails and never mutates the store: the step leaves
the state untouched and reports a value; during a transaction it reads
the staged dict, otherwise the committed dict; and a key absent from
the consulted dict yields `none`, not an error. -/
theorem get_never_fails (db : InMemoryDB) (k : String) :
    (step db (.get k)).1 = db ∧
    (step db (.get k)).2 = .val (get db k) ∧
    (∀ ts, db.transaction_state = some ts →
      get db k = dictGet ts k ∧
      (k ∉ ts.map Prod.fst → get db k = none)) ∧
    (db.transaction_state = none →
      get db k = dictGet db.main_state k ∧
      (k ∉ db.main_state.map Prod.fst → get db k = none)) := by
  refine ⟨rfl, rfl, ?_, ?_⟩
  · intro ts hts
    have hg : get db k = dictGet ts k := by simp [get, hts]
    exact ⟨hg, fun hmem => hg.trans (dictGet_eq_none_of_not_mem ts k hmem)⟩
  · intro hidle
    have hg : get db k = dictGet db.main_state k := by simp [get, hidle]
    exact ⟨hg, fun hmem =>
      hg.trans (dictGet_eq_none_of_not_mem db.main_state k hmem)⟩

/-- Witness for C7: a key never written reads as absent on the fresh
store. -/
theorem get_never_fails_witness :
    get InMemoryDB.init "A" = none :=
  ((get_never_fails InMemoryDB.init "A").2.2.2 rfl).2 (by simp [InMemoryDB.init])

/-- C8: the transaction state machine.  In every reachable state the
staged dict is unique when present; from an idle state only `beginTx`
produces an open state; from an open state only `commit` or `rollback`
produce an idle state; and the committed state changes only at
`commit`. -/
theorem state_machine_invariant (db : InMemoryDB) (h : Reachable db) (op : Op) :
    (∀ ts ts', db.transaction_state = some ts →
      db.transaction_state = some ts' → ts = ts') ∧
    (db.transaction_state = none →
      (step db op).1.transaction_state ≠ none → op = .beginTx) ∧
    (db.transaction_state ≠ none → (step db op).1.transaction_state = none →
      op = .commit ∨ op = .rollback) ∧
    ((step db op).1.main_state ≠ db.main_state → op = .commit) := by
  refine ⟨?_, ?_, ?_, ?_⟩
  · intro ts ts' h1 h2
    rw [h1] at h2
    exact (Option.some.injEq _ _).mp h2
  · intro hidle hopen
    cases op with
    | beginTx => rfl
    | put k v =>
        cases v with
        | int n => simp [step, put, hidle] at hopen
        | obj t => simp [step, put] at hopen; exact absurd hidle hopen
    | get k => exact absurd hidle hopen
    | commit => simp [step, commit, hidle] at hopen
    | rollback => simp [step, rollback, hidle] at hopen
  · intro hopen hidle
    obtain ⟨ts, hts⟩ := Option.ne_none_iff_exists'.mp hopen
    cases op with
    | beginTx => simp [step, begin_transaction, hts] at hidle
    | put k v =>
        cases v with
        | int n => simp [step, put, hts] at hidle
        | obj t => simp [step, put] at hidle; rw [hts] at hidle; cases hidle
    | get k => simp [step] at hidle; rw [hts] at hidle; cases hidle
    | commit => exact Or.inl rfl
    | rollback => exact Or.inr rfl
  · intro hmain
    cases op with
    | beginTx =>
        cases hts : db.transaction_state with
        | none => simp [step, begin_transaction, hts] at hmain
        | some ts => simp [step, begin_transaction, hts] at hmain
    | put k v =>
        cases v with
        | int n =>
            cases hts : db.transaction_state with
            | none => simp [step, put, hts] at hmain
            | some ts => simp [step, put, hts] at hmain
        | obj t => simp [step, put] at hmain
    | get k => simp [step] at hmain
    | commit => rfl
    | rollback =>
        cases hts : db.transaction_state with
        | none => simp [step, rollback, hts] at hmain
        | some ts => simp [step, rollback, hts] at hmain

/-- Witness for C8 on the reachable open state produced by one
`beginTx` from the fresh store, applying the open-to-idle clause at
`commit`. -/
theorem state_machine_invariant_witness :
    Op.commit = Op.commit ∨ Op.commit = Op.rollback :=
  (state_machine_invariant (step InMemoryDB.init .beginTx).1
      (Reachable.step InMemoryDB.init .beginTx Reachable.init) .commit).2.2.1
    (by simp [step, begin_transaction, InMemoryDB.init])
    rfl

/-- C9: the `isinstance` check in `put` comes before the
active-transaction check: a non-integer value fails with `ValueError`
in every state — in particular while no transaction is active, where
it does not fail with `NoTransactionError` — and mutates nothing. -/
theorem put_type_check_before_transaction_check (db : InMemoryDB)
    (k tag : String) :
    put db k (.obj tag) = .error .valueError ∧
    put db k (.obj tag) ≠ .error .noTransactionError ∧
    (step db (.put k (.obj tag))).1 = db := by
  have hp : put db k (.obj tag) = .error .valueError := rfl
  refine ⟨hp, ?_, by simp [step, hp]⟩
  rw [hp]
  intro hcontra
  cases (Except.error.injEq _ _).mp hcontra

/-- C10: the two `commit` implementations — installing the staged dict
directly (`src/InMemoryDB.py`) versus installing a copy of it
(`src/in_memory_db.py`) — are observationally equivalent: they agree
on every single state, and whole runs from any state agree on every
result and on the final store. -/
theorem commit_variants_equivalent (db : InMemoryDB) (ops : List Op) :
    commit_copying db = commit db ∧
    run_copying db ops = run db ops :=
  ⟨commit_copying_eq db, run_copying_eq db ops⟩

end InMemoryDBSpec
